import Mathlib

/-!
Shallow embedding of `src/template/convert_to_no_comment.js`.

The script drives a host document-editing session:

  builder.OpenFile(fileUrl);
  switch (ext) { case "doc": case "docx": oDocument = Api.GetDocument(); break;
                 case "xls": case "xlsx": oDocument = Api.GetActiveSheet(); break; }
  var aComments = oDocument.GetAllComments();
  for (var i = 0; i < aComments.length; i++) aComments[i].Delete();
  builder.SaveFile(ext, "output.${ext}");
  builder.CloseFile();

We model the host as an environment (`HostBehavior`) recording which host
operations succeed, a document as opaque content plus an ordered list of
comment identifiers, and a run of the script as the sequence of host calls it
issues (`trace`), the resulting host filesystem, the produced output file, and
an overall result.  `GetAllComments` returns a snapshot (a fresh array in the
host API): deleting a comment mutates in place the comment
collection of the in-session document but never the snapshot array the loop iterates over.
An unsupported `ext` leaves `oDocument` undefined, so the subsequent method
call `oDocument.GetAllComments()` raises a TypeError: no host call is issued
and the script fails.  A host-reported failure aborts the script at the
failing call (the failing call itself was issued, nothing after it is).
-/

namespace ConvertToNoComment

/-- A host call issued by the script, named after the source API. -/
inductive HostCall where
  | OpenFile (url : String)
  | GetDocument
  | GetActiveSheet
  | GetAllComments
  | Delete (c : Nat)
  | SaveFile (fmt : String) (name : String)
  | CloseFile
deriving DecidableEq

/-- The two accessors the switch can select. -/
inductive Accessor where
  | document
  | sheet
deriving DecidableEq

/-- The host call requesting a given accessor. -/
def accCall : Accessor → HostCall
  | Accessor.document => HostCall.GetDocument
  | Accessor.sheet => HostCall.GetActiveSheet

/-- The `switch (ext)` dispatch: `doc`/`docx` fall through to
`Api.GetDocument`, `xls`/`xlsx` fall through to `Api.GetActiveSheet`, any
other value matches no case and leaves `oDocument` undefined.  JavaScript
`switch` compares with strict (case-sensitive) string equality. -/
def dispatch (ext : String) : Option Accessor :=
  if ext = "doc" ∨ ext = "docx" then some Accessor.document
  else if ext = "xls" ∨ ext = "xlsx" then some Accessor.sheet
  else none

/-- An open document: opaque non-comment content plus the ordered collection
of comment identifiers attached to it. -/
structure Document where
  content : List String
  comments : List Nat
deriving DecidableEq

/-- Which host operations succeed during one invocation. -/
structure HostBehavior where
  openOk : Bool
  accessorOk : Bool
  getAllOk : Bool
  deleteOk : Nat → Bool
  saveOk : Bool
  closeOk : Bool

/-- Result of one run of the script. -/
inductive Result where
  | success
  | hostAbort
  | typeError
deriving DecidableEq

/-- Observables of one run: host calls issued in order, final host
filesystem, the produced output file (if any), and the outcome. -/
structure RunOut where
  trace : List HostCall
  files : List (String × Document)
  output : Option (String × Document)
  result : Result
deriving DecidableEq

/-- Outcome of the deletion loop: calls issued, the in-session document after
the issued deletions, and whether every issued deletion succeeded. -/
structure DelOut where
  calls : List HostCall
  doc : Document
  ok : Bool
deriving DecidableEq

/-- The loop `for (var i = 0; i < aComments.length; i++) aComments[i].Delete()`.
`pending` is the remaining part of the snapshot array `aComments`; each
successful `Delete` removes that comment from the collection of the
in-session document (in-place mutation of the underlying collection), never
from the snapshot.  A failing `Delete` aborts the loop after being issued. -/
def deleteComments (hb : HostBehavior) : List Nat → Document → DelOut
  | [], doc => ⟨[], doc, true⟩
  | c :: rest, doc =>
    if hb.deleteOk c then
      let r := deleteComments hb rest
        { doc with comments := doc.comments.filter (fun x => decide (x ≠ c)) }
      ⟨HostCall.Delete c :: r.calls, r.doc, r.ok⟩
    else ⟨[HostCall.Delete c], doc, false⟩

/-- Write a file into the host filesystem, replacing any file of that name. -/
def writeFile (files : List (String × Document)) (name : String)
    (d : Document) : List (String × Document) :=
  files.filter (fun p => decide (p.1 ≠ name)) ++ [(name, d)]

/-- One run of the whole script on a source document `src` located at
`fileUrl`.  Initially the host filesystem holds only the source file.  Host
calls are issued in source order; the first failing call aborts the run. -/
def run (fileUrl ext : String) (src : Document) (hb : HostBehavior) : RunOut :=
  let files0 := [(fileUrl, src)]
  if hb.openOk then
    match dispatch ext with
    | some acc =>
      if hb.accessorOk then
        if hb.getAllOk then
          let d := deleteComments hb src.comments src
          let tr3 := HostCall.OpenFile fileUrl :: accCall acc ::
            HostCall.GetAllComments :: d.calls
          if d.ok then
            if hb.saveOk then
              ⟨tr3 ++ [HostCall.SaveFile ext ("output." ++ ext),
                  HostCall.CloseFile],
                writeFile files0 ("output." ++ ext) d.doc,
                some ("output." ++ ext, d.doc),
                if hb.closeOk then Result.success else Result.hostAbort⟩
            else
              ⟨tr3 ++ [HostCall.SaveFile ext ("output." ++ ext)], files0,
                none, Result.hostAbort⟩
          else ⟨tr3, files0, none, Result.hostAbort⟩
        else
          ⟨[HostCall.OpenFile fileUrl, accCall acc, HostCall.GetAllComments],
            files0, none, Result.hostAbort⟩
      else ⟨[HostCall.OpenFile fileUrl, accCall acc], files0, none,
        Result.hostAbort⟩
    | none => ⟨[HostCall.OpenFile fileUrl], files0, none, Result.typeError⟩
  else ⟨[HostCall.OpenFile fileUrl], files0, none, Result.hostAbort⟩

/-- All host operations of one run succeed (deletions judged on the snapshot
that is actually iterated). -/
def allOk (hb : HostBehavior) (snapshot : List Nat) : Bool :=
  hb.openOk && hb.accessorOk && hb.getAllOk && snapshot.all hb.deleteOk &&
    hb.saveOk && hb.closeOk

/-- Removing, one after the other, every element of `pending` from `cs`. -/
def stripAll : List Nat → List Nat → List Nat
  | [], cs => cs
  | c :: rest, cs => stripAll rest (cs.filter (fun x => decide (x ≠ c)))

/-- Number of occurrences of a given call in a trace. -/
def countCall (tr : List HostCall) (c : HostCall) : Nat :=
  (tr.filter (fun x => decide (x = c))).length

/-- The full sequence of host calls of a completely successful run. -/
def fullTrace (url ext : String) (acc : Accessor) (snapshot : List Nat) :
    List HostCall :=
  HostCall.OpenFile url :: accCall acc :: HostCall.GetAllComments ::
    (snapshot.map HostCall.Delete ++
      [HostCall.SaveFile ext ("output." ++ ext), HostCall.CloseFile])

/-- The comment identifiers whose deletion a trace requests, in order. -/
def deletesOf : List HostCall → List Nat
  | [] => []
  | HostCall.Delete c :: rest => c :: deletesOf rest
  | _ :: rest => deletesOf rest

/-- A host behavior in which every operation succeeds. -/
def hbAll : HostBehavior :=
  ⟨true, true, true, fun _ => true, true, true⟩

/-- A host behavior in which only the save step fails. -/
def hbNoSave : HostBehavior :=
  ⟨true, true, true, fun _ => true, false, true⟩

/-- `v` is a casing variant of `s`: both spell the same word once every
character is lowercased, but `v` is not the exact string `s`. -/
def casingVariant (v s : String) : Prop :=
  v.data.map Char.toLower = s.data.map Char.toLower ∧ v ≠ s

/-- Membership in `stripAll`: an element survives all the removals exactly
when it was present and is not itself removed. -/
theorem mem_stripAll (x : Nat) :
    ∀ (l cs : List Nat), x ∈ stripAll l cs ↔ x ∈ cs ∧ x ∉ l := by
  intro l
  induction l with
  | nil => intro cs; simp [stripAll]
  | cons c rest ih =>
    intro cs
    rw [stripAll, ih]
    simp only [List.mem_filter, decide_eq_true_eq, List.mem_cons]
    constructor
    · rintro ⟨⟨hx, hne⟩, hnr⟩
      exact ⟨hx, by rintro (h | h) <;> [exact hne h; exact hnr h]⟩
    · rintro ⟨hx, hn⟩
      exact ⟨⟨hx, fun h => hn (Or.inl h)⟩, fun h => hn (Or.inr h)⟩

/-- Removing every element of a list from itself leaves nothing. -/
theorem stripAll_self (l : List Nat) : stripAll l l = [] := by
  apply List.eq_nil_iff_forall_not_mem.mpr
  intro x hx
  rcases (mem_stripAll x l l).mp hx with ⟨h1, h2⟩
  exact h2 h1

theorem deleteComments_nil (hb : HostBehavior) (doc : Document) :
    deleteComments hb [] doc = ⟨[], doc, true⟩ := rfl

theorem deleteComments_cons_pos (hb : HostBehavior) (c : Nat)
    (rest : List Nat) (doc : Document) (hc : hb.deleteOk c = true) :
    deleteComments hb (c :: rest) doc =
      ⟨HostCall.Delete c :: (deleteComments hb rest
          { doc with
            comments := doc.comments.filter (fun x => decide (x ≠ c)) }).calls,
        (deleteComments hb rest
          { doc with
            comments := doc.comments.filter (fun x => decide (x ≠ c)) }).doc,
        (deleteComments hb rest
          { doc with
            comments := doc.comments.filter (fun x => decide (x ≠ c)) }).ok⟩ := by
  rw [deleteComments, hc]
  simp only [if_true]

theorem deleteComments_cons_neg (hb : HostBehavior) (c : Nat)
    (rest : List Nat) (doc : Document) (hc : hb.deleteOk c = false) :
    deleteComments hb (c :: rest) doc = ⟨[HostCall.Delete c], doc, false⟩ := by
  rw [deleteComments, hc]
  simp

/-- When every deletion succeeds, the loop issues one `Delete` per snapshot
entry, in snapshot order, leaves the content untouched and strips the
snapshot entries from the in-session comment collection. -/
theorem deleteComments_all_ok (hb : HostBehavior) :
    ∀ (l : List Nat) (doc : Document), (∀ c ∈ l, hb.deleteOk c = true) →
      deleteComments hb l doc =
        ⟨l.map HostCall.Delete, ⟨doc.content, stripAll l doc.comments⟩, true⟩ := by
  intro l
  induction l with
  | nil => intro doc _; simp [deleteComments, stripAll]
  | cons c rest ih =>
    intro doc h
    have hc : hb.deleteOk c = true := h c (List.mem_cons_self c rest)
    rw [deleteComments, hc]
    simp only [if_true]
    rw [ih _ (fun x hx => h x (List.mem_cons_of_mem c hx))]
    simp [stripAll]

/-- The calls of the loop are always the deletions of an initial segment of the
snapshot, in snapshot order. -/
theorem deleteComments_calls_take (hb : HostBehavior) :
    ∀ (l : List Nat) (doc : Document),
      ∃ k, (deleteComments hb l doc).calls = (l.take k).map HostCall.Delete := by
  intro l
  induction l with
  | nil => intro doc; exact ⟨0, rfl⟩
  | cons c rest ih =>
    intro doc
    by_cases hc : hb.deleteOk c = true
    · rcases ih ({ doc with
        comments := doc.comments.filter (fun x => decide (x ≠ c)) }) with ⟨k, hk⟩
      refine ⟨k + 1, ?_⟩
      rw [deleteComments_cons_pos hb c rest doc hc, List.take_succ_cons,
        List.map_cons]
      exact congrArg (fun t => HostCall.Delete c :: t) hk
    · refine ⟨1, ?_⟩
      rw [deleteComments_cons_neg hb c rest doc (eq_false_of_ne_true hc)]
      rfl

/-- The calls issued by the loop and its success depend only on the snapshot
and on which deletions the host accepts, not on the in-session document. -/
theorem deleteComments_calls_ok_indep (hb : HostBehavior) :
    ∀ (l : List Nat) (doc₁ doc₂ : Document),
      (deleteComments hb l doc₁).calls = (deleteComments hb l doc₂).calls ∧
        (deleteComments hb l doc₁).ok = (deleteComments hb l doc₂).ok := by
  intro l
  induction l with
  | nil => intro doc₁ doc₂; exact ⟨rfl, rfl⟩
  | cons c rest ih =>
    intro doc₁ doc₂
    by_cases hc : hb.deleteOk c = true
    · rcases ih ({ doc₁ with
          comments := doc₁.comments.filter (fun x => decide (x ≠ c)) })
        ({ doc₂ with
          comments := doc₂.comments.filter (fun x => decide (x ≠ c)) }) with
        ⟨h1, h2⟩
      rw [deleteComments_cons_pos hb c rest doc₁ hc,
        deleteComments_cons_pos hb c rest doc₂ hc]
      exact ⟨congrArg (fun t => HostCall.Delete c :: t) h1, h2⟩
    · rw [deleteComments_cons_neg hb c rest doc₁ (eq_false_of_ne_true hc),
        deleteComments_cons_neg hb c rest doc₂ (eq_false_of_ne_true hc)]
      exact ⟨rfl, rfl⟩

theorem countCall_nil (c : HostCall) : countCall [] c = 0 := rfl

theorem countCall_cons (x : HostCall) (tr : List HostCall) (c : HostCall) :
    countCall (x :: tr) c =
      (if x = c then 1 else 0) + countCall tr c := by
  by_cases h : x = c
  · simp [countCall, List.filter, h, Nat.add_comm]
  · simp [countCall, List.filter, h]

theorem countCall_append (a b : List HostCall) (c : HostCall) :
    countCall (a ++ b) c = countCall a c + countCall b c := by
  simp [countCall, List.filter_append]

/-- A call that is not in a trace is counted zero times there. -/
theorem countCall_eq_zero (tr : List HostCall) (c : HostCall)
    (h : ∀ x ∈ tr, x ≠ c) : countCall tr c = 0 := by
  induction tr with
  | nil => rfl
  | cons y rest ih =>
    rw [countCall_cons, if_neg (h y (List.mem_cons_self y rest)),
      Nat.zero_add]
    exact ih (fun x hx => h x (List.mem_cons_of_mem y hx))

/-- Counting a non-`Delete` call in a list of deletions gives zero. -/
theorem countCall_map_Delete (l : List Nat) (c : HostCall)
    (h : ∀ k, c ≠ HostCall.Delete k) :
    countCall (l.map HostCall.Delete) c = 0 := by
  apply countCall_eq_zero
  intro x hx
  rcases List.mem_map.mp hx with ⟨k, _, rfl⟩
  exact fun he => h k he.symm

theorem run_open_fail (url ext : String) (src : Document) (hb : HostBehavior)
    (h : hb.openOk = false) :
    run url ext src hb =
      ⟨[HostCall.OpenFile url], [(url, src)], none, Result.hostAbort⟩ := by
  simp [run, h]

theorem run_unsupported (url ext : String) (src : Document) (hb : HostBehavior)
    (h : hb.openOk = true) (hd : dispatch ext = none) :
    run url ext src hb =
      ⟨[HostCall.OpenFile url], [(url, src)], none, Result.typeError⟩ := by
  simp [run, h, hd]

theorem run_accessor_fail (url ext : String) (src : Document)
    (hb : HostBehavior) (acc : Accessor) (h : hb.openOk = true)
    (hd : dispatch ext = some acc) (ha : hb.accessorOk = false) :
    run url ext src hb =
      ⟨[HostCall.OpenFile url, accCall acc], [(url, src)], none,
        Result.hostAbort⟩ := by
  simp [run, h, hd, ha]

theorem run_getAll_fail (url ext : String) (src : Document)
    (hb : HostBehavior) (acc : Accessor) (h : hb.openOk = true)
    (hd : dispatch ext = some acc) (ha : hb.accessorOk = true)
    (hg : hb.getAllOk = false) :
    run url ext src hb =
      ⟨[HostCall.OpenFile url, accCall acc, HostCall.GetAllComments],
        [(url, src)], none, Result.hostAbort⟩ := by
  simp [run, h, hd, ha, hg]

theorem run_delete_fail (url ext : String) (src : Document)
    (hb : HostBehavior) (acc : Accessor) (h : hb.openOk = true)
    (hd : dispatch ext = some acc) (ha : hb.accessorOk = true)
    (hg : hb.getAllOk = true)
    (hk : (deleteComments hb src.comments src).ok = false) :
    run url ext src hb =
      ⟨HostCall.OpenFile url :: accCall acc :: HostCall.GetAllComments ::
          (deleteComments hb src.comments src).calls,
        [(url, src)], none, Result.hostAbort⟩ := by
  simp [run, h, hd, ha, hg, hk]

theorem run_save_fail (url ext : String) (src : Document)
    (hb : HostBehavior) (acc : Accessor) (h : hb.openOk = true)
    (hd : dispatch ext = some acc) (ha : hb.accessorOk = true)
    (hg : hb.getAllOk = true)
    (hk : (deleteComments hb src.comments src).ok = true)
    (hs : hb.saveOk = false) :
    run url ext src hb =
      ⟨(HostCall.OpenFile url :: accCall acc :: HostCall.GetAllComments ::
          (deleteComments hb src.comments src).calls) ++
            [HostCall.SaveFile ext ("output." ++ ext)],
        [(url, src)], none, Result.hostAbort⟩ := by
  simp [run, h, hd, ha, hg, hk, hs]

theorem run_save_ok (url ext : String) (src : Document)
    (hb : HostBehavior) (acc : Accessor) (h : hb.openOk = true)
    (hd : dispatch ext = some acc) (ha : hb.accessorOk = true)
    (hg : hb.getAllOk = true)
    (hk : (deleteComments hb src.comments src).ok = true)
    (hs : hb.saveOk = true) :
    run url ext src hb =
      ⟨(HostCall.OpenFile url :: accCall acc :: HostCall.GetAllComments ::
          (deleteComments hb src.comments src).calls) ++
            [HostCall.SaveFile ext ("output." ++ ext), HostCall.CloseFile],
        writeFile [(url, src)] ("output." ++ ext)
          (deleteComments hb src.comments src).doc,
        some ("output." ++ ext, (deleteComments hb src.comments src).doc),
        if hb.closeOk then Result.success else Result.hostAbort⟩ := by
  simp [run, h, hd, ha, hg, hk, hs]

/-- Unpacking `allOk` into its six conjuncts. -/
theorem allOk_iff (hb : HostBehavior) (snapshot : List Nat) :
    allOk hb snapshot = true ↔
      hb.openOk = true ∧ hb.accessorOk = true ∧ hb.getAllOk = true ∧
        (∀ c ∈ snapshot, hb.deleteOk c = true) ∧ hb.saveOk = true ∧
          hb.closeOk = true := by
  simp [allOk, Bool.and_eq_true, List.all_eq_true, and_assoc]

/-- A run in which every host operation succeeds: the trace is the full
sequence, the output file holds the source content with no comments, and the
result is success. -/
theorem run_all_ok (url ext : String) (src : Document) (hb : HostBehavior)
    (acc : Accessor) (hd : dispatch ext = some acc)
    (hok : allOk hb src.comments = true) :
    run url ext src hb =
      ⟨fullTrace url ext acc src.comments,
        writeFile [(url, src)] ("output." ++ ext) ⟨src.content, []⟩,
        some ("output." ++ ext, ⟨src.content, []⟩), Result.success⟩ := by
  rcases (allOk_iff hb src.comments).mp hok with
    ⟨h1, h2, h3, h4, h5, h6⟩
  have hdel : deleteComments hb src.comments src =
      ⟨src.comments.map HostCall.Delete,
        ⟨src.content, stripAll src.comments src.comments⟩, true⟩ :=
    deleteComments_all_ok hb src.comments src h4
  have hdelok : (deleteComments hb src.comments src).ok = true := by
    rw [hdel]
  rw [run_save_ok url ext src hb acc h1 hd h2 h3 hdelok h5, hdel, h6,
    stripAll_self]
  rfl

theorem deletesOf_map (l : List Nat) :
    deletesOf (l.map HostCall.Delete) = l := by
  induction l with
  | nil => rfl
  | cons c rest ih => simp [deletesOf, ih]

theorem deletesOf_append (a b : List HostCall) :
    deletesOf (a ++ b) = deletesOf a ++ deletesOf b := by
  induction a with
  | nil => rfl
  | cons x rest ih => cases x <;> simp [deletesOf, ih]

/-- Deletions extracted from the full successful trace are exactly the
snapshot, in order. -/
theorem deletesOf_fullTrace (url ext : String) (acc : Accessor)
    (snapshot : List Nat) :
    deletesOf (fullTrace url ext acc snapshot) = snapshot := by
  cases acc <;>
    simp [fullTrace, accCall, deletesOf, deletesOf_append, deletesOf_map]

/-- The loop reports success exactly when the host accepts every deletion in
the snapshot. -/
theorem deleteComments_ok_iff (hb : HostBehavior) :
    ∀ (l : List Nat) (doc : Document),
      (deleteComments hb l doc).ok = true ↔ ∀ c ∈ l, hb.deleteOk c = true := by
  intro l
  induction l with
  | nil => intro doc; simp [deleteComments_nil]
  | cons c rest ih =>
    intro doc
    by_cases hc : hb.deleteOk c = true
    · rw [deleteComments_cons_pos hb c rest doc hc]
      constructor
      · intro hok
        rw [List.forall_mem_cons]
        exact ⟨hc, (ih _).mp hok⟩
      · intro hall
        exact (ih _).mpr (fun x hx => hall x (List.mem_cons_of_mem c hx))
    · rw [deleteComments_cons_neg hb c rest doc (eq_false_of_ne_true hc)]
      simp [List.forall_mem_cons, hc]

/-- Every call the loop issues is a `Delete`. -/
theorem mem_calls_delete (hb : HostBehavior) (l : List Nat) (doc : Document)
    (x : HostCall) (hx : x ∈ (deleteComments hb l doc).calls) :
    ∃ c, x = HostCall.Delete c := by
  rcases deleteComments_calls_take hb l doc with ⟨k, hk⟩
  rw [hk] at hx
  rcases List.mem_map.mp hx with ⟨c, _, rfl⟩
  exact ⟨c, rfl⟩

/-- A run succeeds exactly when the extension is supported and every host
operation succeeds. -/
theorem run_success_iff (url ext : String) (src : Document)
    (hb : HostBehavior) :
    (run url ext src hb).result = Result.success ↔
      (dispatch ext).isSome = true ∧ allOk hb src.comments = true := by
  constructor
  · intro hres
    by_cases h1 : hb.openOk = true
    · rcases hdd : dispatch ext with _ | acc
      · rw [run_unsupported url ext src hb h1 hdd] at hres
        exact absurd hres (by simp)
      · by_cases h2 : hb.accessorOk = true
        · by_cases h3 : hb.getAllOk = true
          · by_cases h4 : (deleteComments hb src.comments src).ok = true
            · by_cases h5 : hb.saveOk = true
              · by_cases h6 : hb.closeOk = true
                · refine ⟨by simp [hdd], (allOk_iff hb src.comments).mpr
                    ⟨h1, h2, h3, ?_, h5, h6⟩⟩
                  exact (deleteComments_ok_iff hb src.comments src).mp h4
                · rw [run_save_ok url ext src hb acc h1 hdd h2 h3 h4 h5,
                    eq_false_of_ne_true h6] at hres
                  exact absurd hres (by simp)
              · rw [run_save_fail url ext src hb acc h1 hdd h2 h3 h4
                    (eq_false_of_ne_true h5)] at hres
                exact absurd hres (by simp)
            · rw [run_delete_fail url ext src hb acc h1 hdd h2 h3
                  (eq_false_of_ne_true h4)] at hres
              exact absurd hres (by simp)
          · rw [run_getAll_fail url ext src hb acc h1 hdd h2
                (eq_false_of_ne_true h3)] at hres
            exact absurd hres (by simp)
        · rw [run_accessor_fail url ext src hb acc h1 hdd
              (eq_false_of_ne_true h2)] at hres
          exact absurd hres (by simp)
    · rw [run_open_fail url ext src hb (eq_false_of_ne_true h1)] at hres
      exact absurd hres (by simp)
  · rintro ⟨hsome, hok⟩
    rcases Option.isSome_iff_exists.mp hsome with ⟨acc, hdd⟩
    rw [run_all_ok url ext src hb acc hdd hok]

/-- Whatever the host does, the calls a run issues form an initial segment of
the full sequence: the run either completes it or stops at the first
failure. -/
theorem run_trace_isInit (url ext : String) (src : Document)
    (hb : HostBehavior) (acc : Accessor) (hd : dispatch ext = some acc) :
    ∃ rest, (run url ext src hb).trace ++ rest =
      fullTrace url ext acc src.comments := by
  by_cases h1 : hb.openOk = true
  · by_cases h2 : hb.accessorOk = true
    · by_cases h3 : hb.getAllOk = true
      · by_cases h4 : (deleteComments hb src.comments src).ok = true
        · have hall : ∀ c ∈ src.comments, hb.deleteOk c = true :=
            (deleteComments_ok_iff hb src.comments src).mp h4
          have hdel := deleteComments_all_ok hb src.comments src hall
          by_cases h5 : hb.saveOk = true
          · refine ⟨[], ?_⟩
            rw [run_save_ok url ext src hb acc h1 hd h2 h3 h4 h5, hdel]
            simp [fullTrace]
          · refine ⟨[HostCall.CloseFile], ?_⟩
            rw [run_save_fail url ext src hb acc h1 hd h2 h3 h4
              (eq_false_of_ne_true h5), hdel]
            simp [fullTrace]
        · rcases deleteComments_calls_take hb src.comments src with ⟨k, hk⟩
          refine ⟨(src.comments.drop k).map HostCall.Delete ++
            [HostCall.SaveFile ext ("output." ++ ext), HostCall.CloseFile], ?_⟩
          rw [run_delete_fail url ext src hb acc h1 hd h2 h3
            (eq_false_of_ne_true h4), hk]
          simp only [fullTrace, List.cons_append, List.append_assoc,
            List.nil_append]
          rw [← List.append_assoc, ← List.map_append,
            List.take_append_drop]
      · refine ⟨src.comments.map HostCall.Delete ++
          [HostCall.SaveFile ext ("output." ++ ext), HostCall.CloseFile], ?_⟩
        rw [run_getAll_fail url ext src hb acc h1 hd h2
          (eq_false_of_ne_true h3)]
        simp [fullTrace]
    · refine ⟨HostCall.GetAllComments :: (src.comments.map HostCall.Delete ++
        [HostCall.SaveFile ext ("output." ++ ext), HostCall.CloseFile]), ?_⟩
      rw [run_accessor_fail url ext src hb acc h1 hd
        (eq_false_of_ne_true h2)]
      simp [fullTrace]
  · refine ⟨accCall acc :: HostCall.GetAllComments ::
      (src.comments.map HostCall.Delete ++
        [HostCall.SaveFile ext ("output." ++ ext), HostCall.CloseFile]), ?_⟩
    rw [run_open_fail url ext src hb (eq_false_of_ne_true h1)]
    simp [fullTrace]

/-- As long as the file opens and the extension is supported, a call that is
neither the open, nor the enumeration, nor a deletion, nor a save, nor the
close is issued exactly as often as it occurs in the one accessor request. -/
theorem run_count_call (url ext : String) (src : Document) (hb : HostBehavior)
    (acc : Accessor) (h1 : hb.openOk = true) (hd : dispatch ext = some acc)
    (a : HostCall) (hno : HostCall.OpenFile url ≠ a)
    (hng : HostCall.GetAllComments ≠ a)
    (hnd : ∀ c, HostCall.Delete c ≠ a)
    (hns : ∀ f n, HostCall.SaveFile f n ≠ a)
    (hnc : HostCall.CloseFile ≠ a) :
    countCall (run url ext src hb).trace a = countCall [accCall acc] a := by
  have hdelzero : countCall (deleteComments hb src.comments src).calls a = 0 :=
    countCall_eq_zero _ _ (fun x hx => by
      rcases mem_calls_delete hb src.comments src x hx with ⟨c, rfl⟩
      exact hnd c)
  by_cases h2 : hb.accessorOk = true
  · by_cases h3 : hb.getAllOk = true
    · by_cases h4 : (deleteComments hb src.comments src).ok = true
      · by_cases h5 : hb.saveOk = true
        · rw [run_save_ok url ext src hb acc h1 hd h2 h3 h4 h5]
          simp only [countCall_append, countCall_cons, countCall_nil,
            hdelzero, if_neg hno, if_neg hng, if_neg hnc,
            if_neg (hns ext ("output." ++ ext)), Nat.zero_add, Nat.add_zero]
        · rw [run_save_fail url ext src hb acc h1 hd h2 h3 h4
            (eq_false_of_ne_true h5)]
          simp only [countCall_append, countCall_cons, countCall_nil,
            hdelzero, if_neg hno, if_neg hng,
            if_neg (hns ext ("output." ++ ext)), Nat.zero_add, Nat.add_zero]
      · rw [run_delete_fail url ext src hb acc h1 hd h2 h3
          (eq_false_of_ne_true h4)]
        simp only [countCall_cons, countCall_nil, hdelzero, if_neg hno,
          if_neg hng, Nat.zero_add, Nat.add_zero]
    · rw [run_getAll_fail url ext src hb acc h1 hd h2
        (eq_false_of_ne_true h3)]
      simp only [countCall_cons, countCall_nil, if_neg hno, if_neg hng,
        Nat.zero_add, Nat.add_zero]
  · rw [run_accessor_fail url ext src hb acc h1 hd (eq_false_of_ne_true h2)]
    simp only [countCall_cons, countCall_nil, if_neg hno, Nat.zero_add,
      Nat.add_zero]

/-- The full successful sequence contains at most one save request of any
given shape. -/
theorem countCall_fullTrace_save (url ext : String) (acc : Accessor)
    (l : List Nat) (fmt nm : String) :
    countCall (fullTrace url ext acc l) (HostCall.SaveFile fmt nm) ≤ 1 := by
  have hdel : countCall (l.map HostCall.Delete)
      (HostCall.SaveFile fmt nm) = 0 :=
    countCall_map_Delete _ _ (by intro k; simp)
  cases acc <;>
    · simp only [fullTrace, accCall, countCall_cons, countCall_append,
        countCall_nil, hdel]
      simp
      split
      · exact le_refl 1
      · exact Nat.zero_le 1

/-- A run never issues a given save request more than once: no retry. -/
theorem run_count_save_le_one (url ext : String) (src : Document)
    (hb : HostBehavior) (fmt nm : String) :
    countCall (run url ext src hb).trace (HostCall.SaveFile fmt nm) ≤ 1 := by
  rcases hdd : dispatch ext with _ | acc
  · have hz : countCall [HostCall.OpenFile url]
        (HostCall.SaveFile fmt nm) = 0 := by
      apply countCall_eq_zero
      intro x hx
      rw [List.mem_singleton] at hx
      subst hx
      simp
    by_cases h1 : hb.openOk = true
    · rw [run_unsupported url ext src hb h1 hdd]
      simp only [hz]
      exact Nat.zero_le 1
    · rw [run_open_fail url ext src hb (eq_false_of_ne_true h1)]
      simp only [hz]
      exact Nat.zero_le 1
  · rcases run_trace_isInit url ext src hb acc hdd with ⟨rest, hrest⟩
    have hfull := countCall_fullTrace_save url ext acc src.comments fmt nm
    rw [← hrest, countCall_append] at hfull
    exact le_trans (Nat.le_add_right _ _) hfull

/-- Claim C1: for every input document with N comments (N ≥ 0), if all host
operations succeed, the conversion deletes every comment: the deletions the
trace requests are exactly the snapshot returned by `GetAllComments`, the
produced output document contains exactly 0 comments, and all other content
is left untransformed by the script. -/
theorem conv_c1_deletes_all_comments (url ext : String) (src : Document)
    (hb : HostBehavior) (acc : Accessor) (hd : dispatch ext = some acc)
    (hok : allOk hb src.comments = true) :
    (run url ext src hb).result = Result.success ∧
    (run url ext src hb).output =
      some ("output." ++ ext, ⟨src.content, []⟩) ∧
    deletesOf (run url ext src hb).trace = src.comments := by
  rw [run_all_ok url ext src hb acc hd hok]
  exact ⟨rfl, rfl, deletesOf_fullTrace url ext acc src.comments⟩

/-- Witness for C1 at a concrete document with two comments. -/
theorem conv_c1_witness :
    dispatch "docx" = some Accessor.document ∧
    allOk hbAll [1, 2] = true ∧
    ((run "u" "docx" ⟨["body"], [1, 2]⟩ hbAll).result = Result.success ∧
      (run "u" "docx" ⟨["body"], [1, 2]⟩ hbAll).output =
        some ("output." ++ "docx", ⟨["body"], []⟩) ∧
      deletesOf (run "u" "docx" ⟨["body"], [1, 2]⟩ hbAll).trace = [1, 2]) :=
  ⟨by decide, by decide, conv_c1_deletes_all_comments "u" "docx"
    ⟨["body"], [1, 2]⟩ hbAll Accessor.document (by decide) (by decide)⟩

/-- Claim C2: for every `ext` outside doc/docx/xls/xlsx no accessor is
requested, comment enumeration never completes successfully (the run fails
rather than silently no-opping), and no output file is produced. -/
theorem conv_c2_unsupported_fails (url ext : String) (src : Document)
    (hb : HostBehavior)
    (h : ext ≠ "doc" ∧ ext ≠ "docx" ∧ ext ≠ "xls" ∧ ext ≠ "xlsx") :
    (run url ext src hb).result ≠ Result.success ∧
    HostCall.GetDocument ∉ (run url ext src hb).trace ∧
    HostCall.GetActiveSheet ∉ (run url ext src hb).trace ∧
    HostCall.GetAllComments ∉ (run url ext src hb).trace ∧
    (run url ext src hb).output = none ∧
    (run url ext src hb).files = [(url, src)] := by
  have hd : dispatch ext = none := by
    rcases h with ⟨h1, h2, h3, h4⟩
    simp [dispatch, h1, h2, h3, h4]
  by_cases h1 : hb.openOk = true
  · rw [run_unsupported url ext src hb h1 hd]
    exact ⟨by simp, by simp, by simp, by simp, rfl, rfl⟩
  · rw [run_open_fail url ext src hb (eq_false_of_ne_true h1)]
    exact ⟨by simp, by simp, by simp, by simp, rfl, rfl⟩

/-- Witness for C2 at the unsupported extension pdf. -/
theorem conv_c2_witness :
    (("pdf" : String) ≠ "doc" ∧ ("pdf" : String) ≠ "docx" ∧
      ("pdf" : String) ≠ "xls" ∧ ("pdf" : String) ≠ "xlsx") ∧
    ((run "u" "pdf" ⟨["x"], [5]⟩ hbAll).result ≠ Result.success ∧
      HostCall.GetDocument ∉ (run "u" "pdf" ⟨["x"], [5]⟩ hbAll).trace ∧
      HostCall.GetActiveSheet ∉ (run "u" "pdf" ⟨["x"], [5]⟩ hbAll).trace ∧
      HostCall.GetAllComments ∉ (run "u" "pdf" ⟨["x"], [5]⟩ hbAll).trace ∧
      (run "u" "pdf" ⟨["x"], [5]⟩ hbAll).output = none ∧
      (run "u" "pdf" ⟨["x"], [5]⟩ hbAll).files = [("u", ⟨["x"], [5]⟩)]) :=
  ⟨by decide, conv_c2_unsupported_fails "u" "pdf" ⟨["x"], [5]⟩ hbAll
    (by decide)⟩

/-- Claim C3: the accessor dispatch is exact: doc/docx request the
text-document accessor, xls/xlsx the active-sheet accessor, and for every
supported extension exactly one of the two accessors is requested, never
both. -/
theorem conv_c3_accessor_dispatch (url ext : String) (src : Document)
    (hb : HostBehavior) (h1 : hb.openOk = true) :
    ((ext = "doc" ∨ ext = "docx") →
      countCall (run url ext src hb).trace HostCall.GetDocument = 1 ∧
      countCall (run url ext src hb).trace HostCall.GetActiveSheet = 0) ∧
    ((ext = "xls" ∨ ext = "xlsx") →
      countCall (run url ext src hb).trace HostCall.GetActiveSheet = 1 ∧
      countCall (run url ext src hb).trace HostCall.GetDocument = 0) := by
  constructor
  · intro hext
    have hd : dispatch ext = some Accessor.document := by
      rcases hext with rfl | rfl <;> decide
    constructor
    · rw [run_count_call url ext src hb Accessor.document h1 hd
        HostCall.GetDocument (by simp) (by simp) (fun c => by simp)
        (fun f n => by simp) (by simp)]
      decide
    · rw [run_count_call url ext src hb Accessor.document h1 hd
        HostCall.GetActiveSheet (by simp) (by simp) (fun c => by simp)
        (fun f n => by simp) (by simp)]
      decide
  · intro hext
    have hd : dispatch ext = some Accessor.sheet := by
      rcases hext with rfl | rfl <;> decide
    constructor
    · rw [run_count_call url ext src hb Accessor.sheet h1 hd
        HostCall.GetActiveSheet (by simp) (by simp) (fun c => by simp)
        (fun f n => by simp) (by simp)]
      decide
    · rw [run_count_call url ext src hb Accessor.sheet h1 hd
        HostCall.GetDocument (by simp) (by simp) (fun c => by simp)
        (fun f n => by simp) (by simp)]
      decide

/-- Witness for C3 at the extension doc. -/
theorem conv_c3_witness :
    hbAll.openOk = true ∧ (("doc" : String) = "doc" ∨ ("doc" : String) = "docx") ∧
    (countCall (run "u" "doc" ⟨[], [3]⟩ hbAll).trace HostCall.GetDocument = 1 ∧
      countCall (run "u" "doc" ⟨[], [3]⟩ hbAll).trace
        HostCall.GetActiveSheet = 0) :=
  ⟨rfl, Or.inl rfl,
    (conv_c3_accessor_dispatch "u" "doc" ⟨[], [3]⟩ hbAll rfl).1 (Or.inl rfl)⟩

/-- Claim C4: the comment collection is fetched exactly once as a snapshot
before any deletion, never re-queried after deletions begin, and every entry
of the original snapshot gets exactly one `Delete`, in snapshot order — in
this model each `Delete` mutates the underlying in-session collection in
place while the snapshot being iterated stays fixed. -/
theorem conv_c4_snapshot_iteration (url ext : String) (src : Document)
    (hb : HostBehavior) (acc : Accessor) (h1 : hb.openOk = true)
    (hd : dispatch ext = some acc) (h2 : hb.accessorOk = true)
    (h3 : hb.getAllOk = true)
    (h4 : ∀ c ∈ src.comments, hb.deleteOk c = true) :
    ∃ pre post,
      (run url ext src hb).trace =
        pre ++ (HostCall.GetAllComments ::
          src.comments.map HostCall.Delete) ++ post ∧
      HostCall.GetAllComments ∉ pre ∧ HostCall.GetAllComments ∉ post ∧
      (∀ c, HostCall.Delete c ∉ pre) ∧ (∀ c, HostCall.Delete c ∉ post) := by
  have hdel := deleteComments_all_ok hb src.comments src h4
  have hdelok : (deleteComments hb src.comments src).ok = true := by rw [hdel]
  have hpre_g :
      HostCall.GetAllComments ∉ [HostCall.OpenFile url, accCall acc] := by
    cases acc <;> simp [accCall]
  have hpre_d :
      ∀ c, HostCall.Delete c ∉ [HostCall.OpenFile url, accCall acc] := by
    intro c; cases acc <;> simp [accCall]
  by_cases h5 : hb.saveOk = true
  · refine ⟨[HostCall.OpenFile url, accCall acc],
      [HostCall.SaveFile ext ("output." ++ ext), HostCall.CloseFile], ?_,
      hpre_g, by simp, hpre_d, fun c => by simp⟩
    rw [run_save_ok url ext src hb acc h1 hd h2 h3 hdelok h5, hdel]
    simp
  · refine ⟨[HostCall.OpenFile url, accCall acc],
      [HostCall.SaveFile ext ("output." ++ ext)], ?_,
      hpre_g, by simp, hpre_d, fun c => by simp⟩
    rw [run_save_fail url ext src hb acc h1 hd h2 h3 hdelok
      (eq_false_of_ne_true h5), hdel]
    simp

/-- Witness for C4 at a concrete spreadsheet with two comments. -/
theorem conv_c4_witness :
    hbAll.openOk = true ∧ dispatch "xlsx" = some Accessor.sheet ∧
    hbAll.accessorOk = true ∧ hbAll.getAllOk = true ∧
    (∀ c ∈ ([4, 7] : List Nat), hbAll.deleteOk c = true) ∧
    (∃ pre post,
      (run "u" "xlsx" ⟨["s"], [4, 7]⟩ hbAll).trace =
        pre ++ (HostCall.GetAllComments ::
          ([4, 7] : List Nat).map HostCall.Delete) ++ post ∧
      HostCall.GetAllComments ∉ pre ∧ HostCall.GetAllComments ∉ post ∧
      (∀ c, HostCall.Delete c ∉ pre) ∧ (∀ c, HostCall.Delete c ∉ post)) :=
  ⟨rfl, by decide, rfl, rfl, by decide,
    conv_c4_snapshot_iteration "u" "xlsx" ⟨["s"], [4, 7]⟩ hbAll
      Accessor.sheet rfl (by decide) rfl rfl (by decide)⟩

/-- Claim C5: whenever a save request appears in the trace of a run, its
format is exactly `ext` and its filename is exactly the literal
`output.<ext>`, independent of the basename of the input file. -/
theorem conv_c5_save_target (url ext : String) (src : Document)
    (hb : HostBehavior) (fmt nm : String)
    (hmem : HostCall.SaveFile fmt nm ∈ (run url ext src hb).trace) :
    fmt = ext ∧ nm = "output." ++ ext := by
  rcases hdd : dispatch ext with _ | acc
  · by_cases h1 : hb.openOk = true
    · rw [run_unsupported url ext src hb h1 hdd] at hmem
      simp at hmem
    · rw [run_open_fail url ext src hb (eq_false_of_ne_true h1)] at hmem
      simp at hmem
  · rcases run_trace_isInit url ext src hb acc hdd with ⟨rest, hrest⟩
    have hfull : HostCall.SaveFile fmt nm ∈
        fullTrace url ext acc src.comments := by
      rw [← hrest]
      exact List.mem_append_left rest hmem
    cases acc <;> simp [fullTrace, accCall, List.mem_append,
      List.mem_map] at hfull <;> exact ⟨hfull.1, hfull.2⟩

/-- Witness for C5: the save call of a successful run carries the fixed
output name. -/
theorem conv_c5_witness :
    HostCall.SaveFile "docx" "output.docx" ∈
      (run "u" "docx" ⟨[], []⟩ hbAll).trace ∧
    (("docx" : String) = "docx" ∧ ("output.docx" : String) = "output." ++ "docx") :=
  ⟨by decide, conv_c5_save_target "u" "docx" ⟨[], []⟩ hbAll "docx"
    "output.docx" (by decide)⟩

/-- Claim C6: the script performs no error handling of its own: a given save
request is never issued more than once (no retry), every host failure
propagates (a run with any failing operation — or an unsupported extension —
does not end in success, with no recovery), and if the save step fails after
comments have been deleted, the host filesystem still holds exactly the
unmodified source file and no output file is produced (all mutation was on
the in-session copy). -/
theorem conv_c6_no_recovery (url ext : String) (src : Document)
    (hb : HostBehavior) :
    (hb.saveOk = false →
      (run url ext src hb).files = [(url, src)] ∧
      (run url ext src hb).output = none ∧
      (run url ext src hb).result ≠ Result.success) ∧
    ((dispatch ext).isSome = false ∨ allOk hb src.comments = false →
      (run url ext src hb).result ≠ Result.success) ∧
    (∀ fmt nm, countCall (run url ext src hb).trace
      (HostCall.SaveFile fmt nm) ≤ 1) := by
  refine ⟨?_, ?_, fun fmt nm => run_count_save_le_one url ext src hb fmt nm⟩
  · intro hs
    by_cases h1 : hb.openOk = true
    · rcases hdd : dispatch ext with _ | acc
      · rw [run_unsupported url ext src hb h1 hdd]
        exact ⟨rfl, rfl, by simp⟩
      · by_cases h2 : hb.accessorOk = true
        · by_cases h3 : hb.getAllOk = true
          · by_cases h4 : (deleteComments hb src.comments src).ok = true
            · rw [run_save_fail url ext src hb acc h1 hdd h2 h3 h4 hs]
              exact ⟨rfl, rfl, by simp⟩
            · rw [run_delete_fail url ext src hb acc h1 hdd h2 h3
                (eq_false_of_ne_true h4)]
              exact ⟨rfl, rfl, by simp⟩
          · rw [run_getAll_fail url ext src hb acc h1 hdd h2
              (eq_false_of_ne_true h3)]
            exact ⟨rfl, rfl, by simp⟩
        · rw [run_accessor_fail url ext src hb acc h1 hdd
            (eq_false_of_ne_true h2)]
          exact ⟨rfl, rfl, by simp⟩
    · rw [run_open_fail url ext src hb (eq_false_of_ne_true h1)]
      exact ⟨rfl, rfl, by simp⟩
  · intro hfail hres
    rcases (run_success_iff url ext src hb).mp hres with ⟨hsome, hok⟩
    rcases hfail with hf | hf
    · rw [hsome] at hf
      exact absurd hf (by simp)
    · rw [hok] at hf
      exact absurd hf (by simp)

/-- Witness for C6: a run whose save step fails leaves only the source file
and produces no output. -/
theorem conv_c6_witness :
    hbNoSave.saveOk = false ∧
    ((run "u" "docx" ⟨["t"], [9]⟩ hbNoSave).files = [("u", ⟨["t"], [9]⟩)] ∧
      (run "u" "docx" ⟨["t"], [9]⟩ hbNoSave).output = none ∧
      (run "u" "docx" ⟨["t"], [9]⟩ hbNoSave).result ≠ Result.success) :=
  ⟨rfl, (conv_c6_no_recovery "u" "docx" ⟨["t"], [9]⟩ hbNoSave).1 rfl⟩

/-- Claim C7: every successful run issues exactly the fixed linear sequence
open → accessor → enumerate → delete × N → save → close (`fullTrace`, in
which the save follows every deletion and the close is last), and every run
issues an initial segment of that sequence: it runs it to completion or
aborts at its first failure. -/
theorem conv_c7_linear_sequence (url ext : String) (src : Document)
    (hb : HostBehavior) (acc : Accessor) (hd : dispatch ext = some acc) :
    ((run url ext src hb).result = Result.success →
      (run url ext src hb).trace = fullTrace url ext acc src.comments) ∧
    (∃ rest, (run url ext src hb).trace ++ rest =
      fullTrace url ext acc src.comments) := by
  refine ⟨?_, run_trace_isInit url ext src hb acc hd⟩
  intro hres
  rcases (run_success_iff url ext src hb).mp hres with ⟨_, hok⟩
  rw [run_all_ok url ext src hb acc hd hok]

/-- Witness for C7 at a concrete spreadsheet run. -/
theorem conv_c7_witness :
    dispatch "xls" = some Accessor.sheet ∧
    ((run "u" "xls" ⟨[], [2]⟩ hbAll).result = Result.success →
      (run "u" "xls" ⟨[], [2]⟩ hbAll).trace =
        fullTrace "u" "xls" Accessor.sheet [2]) ∧
    (∃ rest, (run "u" "xls" ⟨[], [2]⟩ hbAll).trace ++ rest =
      fullTrace "u" "xls" Accessor.sheet [2]) :=
  ⟨by decide,
    (conv_c7_linear_sequence "u" "xls" ⟨[], [2]⟩ hbAll Accessor.sheet
      (by decide)).1,
    (conv_c7_linear_sequence "u" "xls" ⟨[], [2]⟩ hbAll Accessor.sheet
      (by decide)).2⟩

/-- Claim C8: the session close is attempted as the final call whenever all
earlier steps succeed, and on no run that fails earlier does the close call
appear in the trace at all. -/
theorem conv_c8_close_last (url ext : String) (src : Document)
    (hb : HostBehavior) :
    ((hb.openOk && (dispatch ext).isSome && hb.accessorOk && hb.getAllOk &&
        src.comments.all hb.deleteOk && hb.saveOk) = true →
      (run url ext src hb).trace.getLast? = some HostCall.CloseFile) ∧
    ((hb.openOk && (dispatch ext).isSome && hb.accessorOk && hb.getAllOk &&
        src.comments.all hb.deleteOk && hb.saveOk) = false →
      HostCall.CloseFile ∉ (run url ext src hb).trace) := by
  constructor
  · intro h
    simp only [Bool.and_eq_true] at h
    rcases h with ⟨⟨⟨⟨⟨h1, hsome⟩, h2⟩, h3⟩, hall⟩, h5⟩
    rcases Option.isSome_iff_exists.mp hsome with ⟨acc, hdd⟩
    have h4 : (deleteComments hb src.comments src).ok = true :=
      (deleteComments_ok_iff hb src.comments src).mpr
        (fun c hc => by
          rw [List.all_eq_true] at hall
          exact hall c hc)
    rw [run_save_ok url ext src hb acc h1 hdd h2 h3 h4 h5]
    show (HostCall.OpenFile url :: accCall acc :: HostCall.GetAllComments ::
        (deleteComments hb src.comments src).calls ++
        [HostCall.SaveFile ext ("output." ++ ext),
          HostCall.CloseFile]).getLast? = some HostCall.CloseFile
    rw [show HostCall.OpenFile url :: accCall acc ::
        HostCall.GetAllComments ::
          (deleteComments hb src.comments src).calls ++
        [HostCall.SaveFile ext ("output." ++ ext), HostCall.CloseFile] =
      (HostCall.OpenFile url :: accCall acc :: HostCall.GetAllComments ::
          (deleteComments hb src.comments src).calls ++
        [HostCall.SaveFile ext ("output." ++ ext)]) ++
        [HostCall.CloseFile] from by simp]
    exact List.getLast?_concat _
  · intro h
    have hnotdel : HostCall.CloseFile ∉
        (deleteComments hb src.comments src).calls := by
      intro hmem
      rcases mem_calls_delete hb src.comments src _ hmem with ⟨c, hc⟩
      exact HostCall.noConfusion hc
    by_cases h1 : hb.openOk = true
    · rcases hdd : dispatch ext with _ | acc
      · rw [run_unsupported url ext src hb h1 hdd]
        simp
      · by_cases h2 : hb.accessorOk = true
        · by_cases h3 : hb.getAllOk = true
          · by_cases h4 : (deleteComments hb src.comments src).ok = true
            · by_cases h5 : hb.saveOk = true
              · have hall : src.comments.all hb.deleteOk = true := by
                  rw [List.all_eq_true]
                  exact (deleteComments_ok_iff hb src.comments src).mp h4
                simp [h1, hdd, h2, h3, hall, h5] at h
              · rw [run_save_fail url ext src hb acc h1 hdd h2 h3 h4
                  (eq_false_of_ne_true h5)]
                cases acc <;> simp [accCall, hnotdel]
            · rw [run_delete_fail url ext src hb acc h1 hdd h2 h3
                (eq_false_of_ne_true h4)]
              cases acc <;> simp [accCall, hnotdel]
          · rw [run_getAll_fail url ext src hb acc h1 hdd h2
              (eq_false_of_ne_true h3)]
            cases acc <;> simp [accCall]
        · rw [run_accessor_fail url ext src hb acc h1 hdd
            (eq_false_of_ne_true h2)]
          cases acc <;> simp [accCall]
    · rw [run_open_fail url ext src hb (eq_false_of_ne_true h1)]
      simp

/-- Witness for C8: close is last when everything earlier succeeds, and
absent when the save step fails. -/
theorem conv_c8_witness :
    (hbAll.openOk && (dispatch "doc").isSome && hbAll.accessorOk &&
      hbAll.getAllOk && ([1] : List Nat).all hbAll.deleteOk &&
      hbAll.saveOk) = true ∧
    (run "u" "doc" ⟨[], [1]⟩ hbAll).trace.getLast? =
      some HostCall.CloseFile ∧
    (hbNoSave.openOk && (dispatch "doc").isSome && hbNoSave.accessorOk &&
      hbNoSave.getAllOk && ([1] : List Nat).all hbNoSave.deleteOk &&
      hbNoSave.saveOk) = false ∧
    HostCall.CloseFile ∉ (run "u" "doc" ⟨[], [1]⟩ hbNoSave).trace :=
  ⟨by decide,
    (conv_c8_close_last "u" "doc" ⟨[], [1]⟩ hbAll).1 (by decide),
    by decide,
    (conv_c8_close_last "u" "doc" ⟨[], [1]⟩ hbNoSave).2 (by decide)⟩

/-- A casing variant of `s` cannot equal a string whose lowercased spelling
differs from that of `s`. -/
theorem casingVariant_ne (v s t : String) (hv : casingVariant v s)
    (hst : s.data.map Char.toLower ≠ t.data.map Char.toLower) : v ≠ t := by
  intro hvt
  apply hst
  rw [← hv.1, hvt]

/-- Claim C9: the extension dispatch uses exact, case-sensitive string
equality: every casing variant of a supported extension — any string that
spells doc, docx, xls or xlsx up to letter case without being that exact
lowercase string — selects no accessor and takes the same failing
unsupported-extension path as the wholly unrecognized value pdf. -/
theorem conv_c9_case_sensitive (ext : String)
    (h : casingVariant ext "doc" ∨ casingVariant ext "docx" ∨
      casingVariant ext "xls" ∨ casingVariant ext "xlsx") :
    dispatch ext = none ∧
    ∀ (url : String) (src : Document) (hb : HostBehavior),
      run url ext src hb = run url "pdf" src hb := by
  have hne : ext ≠ "doc" ∧ ext ≠ "docx" ∧ ext ≠ "xls" ∧ ext ≠ "xlsx" := by
    rcases h with hv | hv | hv | hv
    · exact ⟨hv.2, casingVariant_ne ext "doc" "docx" hv (by decide),
        casingVariant_ne ext "doc" "xls" hv (by decide),
        casingVariant_ne ext "doc" "xlsx" hv (by decide)⟩
    · exact ⟨casingVariant_ne ext "docx" "doc" hv (by decide), hv.2,
        casingVariant_ne ext "docx" "xls" hv (by decide),
        casingVariant_ne ext "docx" "xlsx" hv (by decide)⟩
    · exact ⟨casingVariant_ne ext "xls" "doc" hv (by decide),
        casingVariant_ne ext "xls" "docx" hv (by decide), hv.2,
        casingVariant_ne ext "xls" "xlsx" hv (by decide)⟩
    · exact ⟨casingVariant_ne ext "xlsx" "doc" hv (by decide),
        casingVariant_ne ext "xlsx" "docx" hv (by decide),
        casingVariant_ne ext "xlsx" "xls" hv (by decide), hv.2⟩
  have hd : dispatch ext = none := by
    rcases hne with ⟨h1, h2, h3, h4⟩
    simp [dispatch, h1, h2, h3, h4]
  have hP : dispatch "pdf" = none := by decide
  refine ⟨hd, ?_⟩
  intro url src hb
  by_cases h1 : hb.openOk = true
  · rw [run_unsupported url ext src hb h1 hd,
      run_unsupported url "pdf" src hb h1 hP]
  · rw [run_open_fail url ext src hb (eq_false_of_ne_true h1),
      run_open_fail url "pdf" src hb (eq_false_of_ne_true h1)]

/-- Witness for C9 at two concrete casing variants, one per accessor family:
DOCX (variant of docx) and Xls (variant of xls). -/
theorem conv_c9_witness :
    (casingVariant "DOCX" "doc" ∨ casingVariant "DOCX" "docx" ∨
      casingVariant "DOCX" "xls" ∨ casingVariant "DOCX" "xlsx") ∧
    dispatch "DOCX" = none ∧
    run "v" "DOCX" ⟨["w"], [3]⟩ hbAll = run "v" "pdf" ⟨["w"], [3]⟩ hbAll ∧
    (casingVariant "Xls" "doc" ∨ casingVariant "Xls" "docx" ∨
      casingVariant "Xls" "xls" ∨ casingVariant "Xls" "xlsx") ∧
    dispatch "Xls" = none ∧
    run "v" "Xls" ⟨["w"], [3]⟩ hbAll = run "v" "pdf" ⟨["w"], [3]⟩ hbAll := by
  have hA : casingVariant "DOCX" "doc" ∨ casingVariant "DOCX" "docx" ∨
      casingVariant "DOCX" "xls" ∨ casingVariant "DOCX" "xlsx" :=
    Or.inr (Or.inl ⟨by decide, by decide⟩)
  have hB : casingVariant "Xls" "doc" ∨ casingVariant "Xls" "docx" ∨
      casingVariant "Xls" "xls" ∨ casingVariant "Xls" "xlsx" :=
    Or.inr (Or.inr (Or.inl ⟨by decide, by decide⟩))
  exact ⟨hA, (conv_c9_case_sensitive "DOCX" hA).1,
    (conv_c9_case_sensitive "DOCX" hA).2 "v" ⟨["w"], [3]⟩ hbAll,
    hB, (conv_c9_case_sensitive "Xls" hB).1,
    (conv_c9_case_sensitive "Xls" hB).2 "v" ⟨["w"], [3]⟩ hbAll⟩

/-- Claim C10: the script is deterministic: two runs with the same file URL,
the same extension, the same host behavior and the same comment snapshot
issue exactly the same sequence of host calls, with no dependence on any
other input (in particular not on other document content). -/
theorem conv_c10_deterministic (url ext : String) (src₁ src₂ : Document)
    (hb : HostBehavior) (h : src₁.comments = src₂.comments) :
    (run url ext src₁ hb).trace = (run url ext src₂ hb).trace := by
  by_cases h1 : hb.openOk = true
  · rcases hdd : dispatch ext with _ | acc
    · rw [run_unsupported url ext src₁ hb h1 hdd,
        run_unsupported url ext src₂ hb h1 hdd]
    · by_cases h2 : hb.accessorOk = true
      · by_cases h3 : hb.getAllOk = true
        · have hcalls : (deleteComments hb src₁.comments src₁).calls =
              (deleteComments hb src₂.comments src₂).calls := by
            rw [← h]
            exact (deleteComments_calls_ok_indep hb src₁.comments
              src₁ src₂).1
          have hok : (deleteComments hb src₁.comments src₁).ok =
              (deleteComments hb src₂.comments src₂).ok := by
            rw [← h]
            exact (deleteComments_calls_ok_indep hb src₁.comments
              src₁ src₂).2
          by_cases h4 : (deleteComments hb src₁.comments src₁).ok = true
          · have h4' : (deleteComments hb src₂.comments src₂).ok = true := by
              rw [← hok]; exact h4
            by_cases h5 : hb.saveOk = true
            · rw [run_save_ok url ext src₁ hb acc h1 hdd h2 h3 h4 h5,
                run_save_ok url ext src₂ hb acc h1 hdd h2 h3 h4' h5]
              simp [hcalls]
            · rw [run_save_fail url ext src₁ hb acc h1 hdd h2 h3 h4
                  (eq_false_of_ne_true h5),
                run_save_fail url ext src₂ hb acc h1 hdd h2 h3 h4'
                  (eq_false_of_ne_true h5)]
              simp [hcalls]
          · have h4' : (deleteComments hb src₂.comments src₂).ok = false := by
              rw [← hok]; exact eq_false_of_ne_true h4
            rw [run_delete_fail url ext src₁ hb acc h1 hdd h2 h3
                (eq_false_of_ne_true h4),
              run_delete_fail url ext src₂ hb acc h1 hdd h2 h3 h4']
            simp [hcalls]
        · rw [run_getAll_fail url ext src₁ hb acc h1 hdd h2
              (eq_false_of_ne_true h3),
            run_getAll_fail url ext src₂ hb acc h1 hdd h2
              (eq_false_of_ne_true h3)]
      · rw [run_accessor_fail url ext src₁ hb acc h1 hdd
            (eq_false_of_ne_true h2),
          run_accessor_fail url ext src₂ hb acc h1 hdd
            (eq_false_of_ne_true h2)]
  · rw [run_open_fail url ext src₁ hb (eq_false_of_ne_true h1),
      run_open_fail url ext src₂ hb (eq_false_of_ne_true h1)]

/-- Witness for C10: two documents with different content but the same
comment snapshot yield identical traces. -/
theorem conv_c10_witness :
    (Document.mk ["a"] [1, 2]).comments =
      (Document.mk ["b", "c"] [1, 2]).comments ∧
    (run "u" "docx" ⟨["a"], [1, 2]⟩ hbAll).trace =
      (run "u" "docx" ⟨["b", "c"], [1, 2]⟩ hbAll).trace :=
  ⟨rfl, conv_c10_deterministic "u" "docx" ⟨["a"], [1, 2]⟩
    ⟨["b", "c"], [1, 2]⟩ hbAll rfl⟩

end ConvertToNoComment
